import Mathlib

/-!
Verification of the command-registry / dispatcher layer of the rel-js bot
(`CommandsModule` and its helpers).

The TypeScript source is shallowly embedded: the JavaScript `Map` objects of
`CommandsModule` become insertion-ordered association lists, descriptor object
identity becomes an explicit heap (`Nat` ids mapped to descriptor records) so
that aliasing between the kind maps and the path map is visible, and the
awaited side effects (`destroy`, `load`, import failure logging) become events
on an explicit trace.  Node timers are modelled by a deadline plus a flag
recording whether the one promise created by `onCommandFileChanged` is still
unresolved; `Timeout.refresh` reschedules the callback but resolving an
already-resolved promise is a no-op, which is exactly what the flag captures.
-/

namespace RelJs

/-- Lookup in a JS Map modelled as an insertion-ordered association list:
returns the value of the first (and, for genuine Map states, only) entry with
the given key. -/
def mapGet {K V : Type} [DecidableEq K] (m : List (K × V)) (k : K) : Option V :=
  match m with
  | [] => none
  | kv :: rest => if kv.1 = k then some kv.2 else mapGet rest k

/-- JS `Map.set`: overwrite the entry in place when the key is present
(keeping its insertion position), otherwise append a new entry. -/
def mapSet {K V : Type} [DecidableEq K] (m : List (K × V)) (k : K) (v : V) : List (K × V) :=
  match m with
  | [] => [(k, v)]
  | kv :: rest => if kv.1 = k then (k, v) :: rest else kv :: mapSet rest k v

/-- JS `Map.delete`: remove the entry with the given key. -/
def mapDelete {K V : Type} [DecidableEq K] (m : List (K × V)) (k : K) : List (K × V) :=
  match m with
  | [] => []
  | kv :: rest => if kv.1 = k then mapDelete rest k else kv :: mapDelete rest k

theorem mapGet_mapSet_self {K V : Type} [DecidableEq K] (m : List (K × V)) (k : K) (v : V) :
    mapGet (mapSet m k v) k = some v := by
  induction m with
  | nil => simp [mapGet, mapSet]
  | cons kv rest ih =>
    by_cases h : kv.1 = k
    · simp [mapGet, mapSet, h]
    · simp [mapGet, mapSet, h, ih]

theorem mapGet_mapSet_ne {K V : Type} [DecidableEq K] (m : List (K × V)) (k k2 : K) (v : V)
    (h : k2 ≠ k) : mapGet (mapSet m k v) k2 = mapGet m k2 := by
  induction m with
  | nil => simp [mapGet, mapSet, Ne.symm h]
  | cons kv rest ih =>
    by_cases hk : kv.1 = k
    · subst hk
      simp [mapGet, mapSet, Ne.symm h]
    · simp [mapGet, mapSet, hk, ih]

theorem mapSet_mapSet_self {K V : Type} [DecidableEq K] (m : List (K × V)) (k : K) (v w : V) :
    mapSet (mapSet m k v) k w = mapSet m k w := by
  induction m with
  | nil => simp [mapSet]
  | cons kv rest ih =>
    by_cases h : kv.1 = k
    · simp [mapSet, h]
    · simp [mapSet, h, ih]

theorem mapSet_of_mapGet_none {K V : Type} [DecidableEq K] (m : List (K × V)) (k : K) (v : V)
    (h : mapGet m k = none) : mapSet m k v = m ++ [(k, v)] := by
  induction m with
  | nil => simp [mapSet]
  | cons kv rest ih =>
    by_cases hk : kv.1 = k
    · simp [mapGet, hk] at h
    · simp [mapGet, hk] at h
      simp [mapSet, hk, ih h]

theorem mapGet_mapDelete_self {K V : Type} [DecidableEq K] (m : List (K × V)) (k : K) :
    mapGet (mapDelete m k) k = none := by
  induction m with
  | nil => simp [mapGet, mapDelete]
  | cons kv rest ih =>
    by_cases h : kv.1 = k
    · simp [mapDelete, h, ih]
    · simp [mapGet, mapDelete, h, ih]

theorem mem_keys_mapSet {K V : Type} [DecidableEq K] (m : List (K × V)) (k k2 : K) (v : V)
    (h : k2 ∈ (mapSet m k v).map Prod.fst) : k2 ∈ m.map Prod.fst ∨ k2 = k := by
  induction m with
  | nil =>
    right
    simpa [mapSet] using h
  | cons kv rest ih =>
    by_cases hk : kv.1 = k
    · subst hk
      rcases (by simpa [mapSet] using h : k2 = kv.1 ∨ k2 ∈ rest.map Prod.fst) with h3 | h3
      · exact Or.inr h3
      · exact Or.inl (by simp [h3])
    · rcases (by simpa [mapSet, hk] using h : k2 = kv.1 ∨ k2 ∈ (mapSet rest k v).map Prod.fst) with h3 | h3
      · exact Or.inl (by simp [h3])
      · rcases ih h3 with h4 | h4
        · exact Or.inl (by simp [h4])
        · exact Or.inr h4

theorem keys_nodup_mapSet {K V : Type} [DecidableEq K] (m : List (K × V)) (k : K) (v : V)
    (h : (m.map Prod.fst).Nodup) : ((mapSet m k v).map Prod.fst).Nodup := by
  induction m with
  | nil => simp [mapSet]
  | cons kv rest ih =>
    simp only [List.map_cons, List.nodup_cons] at h
    by_cases hk : kv.1 = k
    · subst hk
      simpa [mapSet, List.nodup_cons] using h
    · simp only [mapSet, if_neg hk, List.map_cons, List.nodup_cons]
      refine ⟨?_, ih h.2⟩
      intro hmem2
      rcases mem_keys_mapSet rest k kv.1 v hmem2 with h3 | h3
      · exact h.1 h3
      · exact hk h3

/-- The three command kinds of `ECommandType` (declared in the missing
`@core/types` module; the three members are taken from their uses in the
source). -/
inductive ECommandType
  | slash
  | userContextMenu
  | chatContextMenu
deriving DecidableEq, Repr

/-- Modelled from the spec: the numeric wire codes of `ECommandType` live in
the missing `@core/types` module; the spec only requires them to be the
distinct platform codes, so three distinct naturals are used. -/
def ECommandType.code : ECommandType → Nat
  | .slash => 1
  | .userContextMenu => 2
  | .chatContextMenu => 3

/-- Modelled from the spec: the lifecycle states of `Loadable` (declared in
the missing `@core/base` module); the spec lists
{Unloaded, Loading, Loaded, Destroying, Destroyed}. -/
inductive ELoadableState
  | unloaded
  | loading
  | loaded
  | destroying
  | destroyed
deriving DecidableEq, Repr

/-- One declared command option (`ICommandOption` of `@core/types`); the
registry carries options through opaquely, so only identifying fields are
modelled. -/
structure ICommandOption where
  name : String
  description : String
deriving DecidableEq, Repr

/-- A command descriptor: the fields of `CommandBase` / `SlashCommand`
(`group` is the empty string for every non-slash command, as in the source
where only `SlashCommand` declares it), plus the `Loadable` state. -/
structure Cmd where
  name : String
  type : ECommandType
  description : String
  group : String := ""
  options : List ICommandOption := []
  plugin : Option String := none
  state : ELoadableState := .unloaded
deriving DecidableEq, Repr

/-- `CommandBase.uniqueId`, the template string of kind code and name. -/
def Cmd.uniqueId (c : Cmd) : String := toString c.type.code ++ c.name

/-- Observable side effects of the registry, recorded on a trace in the order
the awaited statements of the source complete. -/
inductive Event
  | destroyStart (id : Nat)
  | destroyEnd (id : Nat)
  | insertKind (t : ECommandType) (name : String) (id : Nat)
  | loadStart (id : Nat)
  | loadEnd (id : Nat)
  | importError (path : String)
deriving DecidableEq, Repr

/-- A pending debounce timer: the instant it will fire, and whether the one
promise created by `onCommandFileChanged` for it is still unresolved
(`Timeout.refresh` reschedules the callback, but resolving an
already-resolved promise does nothing, so the reload continuation runs at
most once per scheduled promise). -/
structure Timer where
  deadline : Nat
  promisePending : Bool
deriving DecidableEq, Repr

/-- The state of `CommandsModule`: descriptor objects live on a heap of ids
so that the aliasing between `pathsToCommands` and the kind maps is explicit;
every JS Map field of the class becomes an association list of ids. -/
structure ModuleState where
  heap : List (Nat × Cmd) := []
  nextId : Nat := 0
  commands : List (String × Nat) := []
  slashCommands : List (String × Nat) := []
  userContextMenuCommands : List (String × Nat) := []
  chatContextMenuCommands : List (String × Nat) := []
  pathsToCommands : List (String × Nat) := []
  pendingFileUpdate : List (String × Timer) := []
  trace : List Event := []
deriving DecidableEq, Repr

/-- `CommandsModule.FILE_UPDATE_TIMEOUT = 1000 * 10` milliseconds. -/
def FILE_UPDATE_TIMEOUT : Nat := 1000 * 10

/-- Set the lifecycle state of the descriptor with the given id. -/
def heapSetState (h : List (Nat × Cmd)) (id : Nat) (st : ELoadableState) : List (Nat × Cmd) :=
  h.map (fun e => if e.1 = id then (e.1, { e.2 with state := st }) else e)

/-- An awaited `command.destroy()`: the object reaches the Destroyed state and
the start and completion of the destruction appear on the trace. -/
def destroyCmd (s : ModuleState) (id : Nat) : ModuleState :=
  { s with heap := heapSetState s.heap id .destroyed,
           trace := s.trace ++ [.destroyStart id, .destroyEnd id] }

/-- An awaited `command.load()`: the object reaches the Loaded state and the
start and completion of the load appear on the trace. -/
def loadCmd (s : ModuleState) (id : Nat) : ModuleState :=
  { s with heap := heapSetState s.heap id .loaded,
           trace := s.trace ++ [.loadStart id, .loadEnd id] }

/-- `CommandsModule.addChatContextMenuCommand`: destroy (awaiting completion)
any occupant of the name slot, then store the new descriptor. -/
def addChatContextMenuCommand (s : ModuleState) (id : Nat) (c : Cmd) : ModuleState :=
  let s1 := match mapGet s.chatContextMenuCommands c.name with
    | some oldId => destroyCmd s oldId
    | none => s
  { s1 with chatContextMenuCommands := mapSet s1.chatContextMenuCommands c.name id,
            trace := s1.trace ++ [.insertKind .chatContextMenu c.name id] }

/-- `CommandsModule.addSlashCommand`: destroy (awaiting completion) any
occupant of the name slot, then store the new descriptor. -/
def addSlashCommand (s : ModuleState) (id : Nat) (c : Cmd) : ModuleState :=
  let s1 := match mapGet s.slashCommands c.name with
    | some oldId => destroyCmd s oldId
    | none => s
  { s1 with slashCommands := mapSet s1.slashCommands c.name id,
            trace := s1.trace ++ [.insertKind .slash c.name id] }

/-- `CommandsModule.addUserContextMenuCommand`: destroy (awaiting completion)
any occupant of the name slot, then store the new descriptor. -/
def addUserContextMenuCommand (s : ModuleState) (id : Nat) (c : Cmd) : ModuleState :=
  let s1 := match mapGet s.userContextMenuCommands c.name with
    | some oldId => destroyCmd s oldId
    | none => s
  { s1 with userContextMenuCommands := mapSet s1.userContextMenuCommands c.name id,
            trace := s1.trace ++ [.insertKind .userContextMenu c.name id] }

/-- `CommandsModule.addCommand`: record the descriptor under its `uniqueId`,
dispatch on its kind to the kind-specific insert, then await `load()`. -/
def addCommand (s : ModuleState) (id : Nat) (c : Cmd) : ModuleState :=
  let s0 := { s with commands := mapSet s.commands c.uniqueId id }
  let s1 := match c.type with
    | .chatContextMenu => addChatContextMenuCommand s0 id c
    | .slash => addSlashCommand s0 id c
    | .userContextMenu => addUserContextMenuCommand s0 id c
  loadCmd s1 id

/-- The file extension guard string of `importCommand`. -/
def jsExt : String := ".js"

/-- JS `String.prototype.endsWith`, modelled over the character lists of the
two strings. -/
def strEndsWith (s post : String) : Bool :=
  decide (post.data.length ≤ s.data.length)
    && (s.data.drop (s.data.length - post.data.length) == post.data)

/-- `command.setPlugin(plugin)` guarded by `if (plugin)`. -/
def applyPlugin (plugin : Option String) (c : Cmd) : Cmd :=
  match plugin with
  | some p => { c with plugin := some p }
  | none => c

/-- `CommandsModule.importCommand`: skip non-module files; a module is either
a constructible descriptor (`some`) or one whose require/constructor throws
(`none`), in which case the error is caught and logged with the path and the
registry is left untouched.  On success the fresh object is allocated,
optionally given the plugin, passed to `addCommand`, and only when `bWatch`
is set is the path bound in `pathsToCommands` (and the file watched). -/
def importCommand (s : ModuleState) (importPath : String) (modl : Option Cmd)
    (plugin : Option String) (bWatch : Bool) : ModuleState :=
  if strEndsWith importPath jsExt then
    match modl with
    | none => { s with trace := s.trace ++ [.importError importPath] }
    | some c0 =>
      let c := applyPlugin plugin c0
      let id := s.nextId
      let s1 := { s with heap := mapSet s.heap id c, nextId := id + 1 }
      let s2 := addCommand s1 id c
      if bWatch then { s2 with pathsToCommands := mapSet s2.pathsToCommands importPath id }
      else s2
  else s

/-- `CommandsModule.onLoad` over an already-read directory listing: import
every file in order (plugin null, watching enabled). -/
def onLoadBatch (s : ModuleState) (files : List (String × Option Cmd)) : ModuleState :=
  files.foldl (fun st pf => importCommand st pf.1 pf.2 none true) s

/-- The synchronous part of `CommandsModule.onCommandFileChanged` at instant
`now`: refresh the pending timer for the path when one exists, otherwise
schedule a fresh timer `FILE_UPDATE_TIMEOUT` from now whose promise is
unresolved. -/
def onCommandFileChanged (s : ModuleState) (p : String) (now : Nat) : ModuleState :=
  match mapGet s.pendingFileUpdate p with
  | some tm =>
    { s with pendingFileUpdate := mapSet s.pendingFileUpdate p (Timer.mk (now + FILE_UPDATE_TIMEOUT) tm.promisePending) }
  | none =>
    { s with pendingFileUpdate := mapSet s.pendingFileUpdate p (Timer.mk (now + FILE_UPDATE_TIMEOUT) true) }

/-- The continuation of `onCommandFileChanged` after its awaited promise
resolves: when the path is tracked, abort if the bound descriptor is already
Destroying, otherwise destroy it, re-import the path with the same plugin and
`bWatch = false`, and clear the pending entry. -/
def fileChangedResume (s : ModuleState) (p : String) (modl : Option Cmd) : ModuleState :=
  match mapGet s.pathsToCommands p with
  | none => s
  | some id =>
    match mapGet s.heap id with
    | none => s
    | some c =>
      if c.state = ELoadableState.destroying then s
      else
        let s1 := destroyCmd s id
        let s2 := importCommand s1 p modl c.plugin false
        { s2 with pendingFileUpdate := mapDelete s2.pendingFileUpdate p }

/-- The debounce timer for `p` firing: a firing timer resolves the promise of
its `onCommandFileChanged` call when that promise is still unresolved, running
the reload continuation; a refreshed timer whose promise already resolved
fires without effect. -/
def onTimerFire (s : ModuleState) (p : String) (modl : Option Cmd) : ModuleState :=
  match mapGet s.pendingFileUpdate p with
  | none => s
  | some tm =>
    if tm.promisePending then
      fileChangedResume
        { s with pendingFileUpdate := mapSet s.pendingFileUpdate p (Timer.mk tm.deadline false) } p modl
    else s

/-- A burst of change events for one path, in order of arrival. -/
def runBurst (s : ModuleState) (p : String) (ts : List Nat) : ModuleState :=
  ts.foldl (fun st t => onCommandFileChanged st p t) s

/-- `CommandsModule.getSlashCommand`. -/
def getSlashCommand (s : ModuleState) (id : String) : Option Nat :=
  mapGet s.slashCommands id

/-- `CommandsModule.getUserContextMenuCommand`. -/
def getUserContextMenuCommand (s : ModuleState) (id : String) : Option Nat :=
  mapGet s.userContextMenuCommands id

/-- `CommandsModule.getChatContextMenuCommand`, exactly as written in the
source: its body reads `this.userContextMenuCommands`, not the chat table. -/
def getChatContextMenuCommand (s : ModuleState) (id : String) : Option Nat :=
  mapGet s.userContextMenuCommands id

/-- The kind-specific lookup table for a command kind. -/
def kindMap (s : ModuleState) : ECommandType → List (String × Nat)
  | .slash => s.slashCommands
  | .userContextMenu => s.userContextMenuCommands
  | .chatContextMenu => s.chatContextMenuCommands

/-- An inbound interaction, already classified the way the guard chain of
`onInteractionCreate` classifies it (`isCommand`, then `isUserContextMenu`,
then `isContextMenu`); `other` is an interaction failing the initial
`isCommand / isContextMenu` guard.  For the slash case,
`subName = getSubcommand(false)`, a string or null. -/
inductive Interaction
  | slash (subName : Option String) (commandName : String)
  | userContextMenu (commandName : String)
  | chatContextMenu (commandName : String)
  | other
deriving DecidableEq, Repr

/-- JS truthiness of a string-or-null value: null and the empty string are
falsy. -/
def jsTruthy (v : Option String) : Bool :=
  match v with
  | some x => !(x == "")
  | none => false

/-- Descriptor resolution of `CommandsModule.onInteractionCreate`: slash
interactions resolve by sub-command name when one is carried, else by the
top-level command name; the menu kinds resolve in their own table; other
interactions resolve to nothing. -/
def resolveInteraction (s : ModuleState) (i : Interaction) : Option Nat :=
  match i with
  | .slash subName commandName =>
    if jsTruthy subName then mapGet s.slashCommands (subName.getD "")
    else mapGet s.slashCommands commandName
  | .userContextMenu n => mapGet s.userContextMenuCommands n
  | .chatContextMenu n => mapGet s.chatContextMenuCommands n
  | .other => none

/-- A user-observable action the dispatcher takes. -/
inductive Action
  | execute (id : Nat)
  | reply (msg : String)
deriving DecidableEq, Repr

/-- `CommandsModule.onInteractionCreate`: guard, resolve, and execute the
resolved descriptor; when nothing resolves the body falls through and the
whole handler (wrapped in try/catch) produces no action at all. -/
def onInteractionCreate (s : ModuleState) (i : Interaction) : List Action :=
  match i with
  | .other => []
  | _ =>
    match resolveInteraction s i with
    | some id => [.execute id]
    | none => []

/-- The reply text of the legacy events-module handler. -/
def notImplementedMsg : String := "Command not yet implemented"

/-- An action of the legacy dispatcher (commands are plain named modules
there). -/
inductive LegacyAction
  | execute (name : String)
  | reply (msg : String)
deriving DecidableEq, Repr

/-- The legacy `onInteractionCreate` of the events module: after the
`isCommand / isContextMenu` guard it parses the interaction into a command
(undefined when nothing is registered) and, when the result is undefined,
replies with the not-implemented message; otherwise it executes the command. -/
def legacyOnInteractionCreate (isCommandLike : Bool) (resolved : Option String) : List LegacyAction :=
  if isCommandLike then
    match resolved with
    | none => [.reply notImplementedMsg]
    | some c => [.execute c]
  else []

/-- The `type` field of an exported wire object: either a command kind code
or the sub-command option code (`ECommandOptionType.SUB_COMMAND`). -/
inductive ApiType
  | cmd (t : ECommandType)
  | subCommand
deriving DecidableEq, Repr

/-- A sub-command entry pushed into the options array of a group parent. -/
structure SubEntry where
  name : String
  description : String
  options : List ICommandOption
  type : ApiType
deriving DecidableEq, Repr

/-- The options array of a wire object: either declared command options or a
list of sub-command entries (for group parents). -/
inductive ApiOptionsField
  | opts (l : List ICommandOption)
  | subs (l : List SubEntry)
deriving DecidableEq, Repr

/-- `IDiscordApiCommand`: one object of the export payload; absent optional
fields are `none`. -/
structure IDiscordApiCommand where
  name : String
  description : Option String := none
  options : Option ApiOptionsField := none
  type : Option ApiType := none
deriving DecidableEq, Repr

/-- The sub-command object pushed for one grouped slash command. -/
def subEntryOf (c : Cmd) : SubEntry :=
  { name := c.name, description := c.description, options := c.options, type := .subCommand }

/-- The top-level object pushed for one ungrouped slash command. -/
def topSlashEntryOf (c : Cmd) : IDiscordApiCommand :=
  { name := c.name, description := some c.description,
    options := some (.opts c.options), type := some (.cmd c.type) }

/-- The top-level object pushed for a context-menu command (name and type
only). -/
def menuEntryOf (c : Cmd) : IDiscordApiCommand :=
  { name := c.name, type := some (.cmd c.type) }

/-- The description suffix of a freshly created group parent. -/
def interfaceSuffix : String := " interface"

/-- The group parent created on first encounter of a group: name, the
interface description, and an empty options array. -/
def emptyGroupEntry (g : String) : IDiscordApiCommand :=
  { name := g, description := some (g ++ interfaceSuffix), options := some (.subs []) }

/-- The sub-entry array held by a group parent. -/
def getSubs (p : IDiscordApiCommand) : List SubEntry :=
  match p.options with
  | some (.subs l) => l
  | _ => []

/-- Push one sub-command entry onto the options array of a group parent. -/
def pushSub (p : IDiscordApiCommand) (e : SubEntry) : IDiscordApiCommand :=
  { p with options := some (.subs (getSubs p ++ [e])) }

/-- One iteration of the `slashCommands.forEach` body of
`CommandsModule.export`: a grouped command is pushed as a sub-command into
its group parent (created on first encounter), an ungrouped one is pushed
onto the top-level list. -/
def exportStep (acc : List (String × IDiscordApiCommand) × List IDiscordApiCommand) (c : Cmd) :
    List (String × IDiscordApiCommand) × List IDiscordApiCommand :=
  if 0 < c.group.length then
    let parent := match mapGet acc.1 c.group with
      | some p => p
      | none => emptyGroupEntry c.group
    (mapSet acc.1 c.group (pushSub parent (subEntryOf c)), acc.2)
  else
    (acc.1, acc.2 ++ [topSlashEntryOf c])

/-- The descriptors of one kind map, in iteration order (JS Map iteration is
insertion order), read through the heap. -/
def kindValues (s : ModuleState) (m : List (String × Nat)) : List Cmd :=
  m.filterMap (fun kv => mapGet s.heap kv.2)

/-- The slash descriptors in iteration order. -/
def slashListOf (s : ModuleState) : List Cmd := kindValues s s.slashCommands

/-- The user-context-menu descriptors in iteration order. -/
def userListOf (s : ModuleState) : List Cmd := kindValues s s.userContextMenuCommands

/-- The chat-context-menu descriptors in iteration order. -/
def chatListOf (s : ModuleState) : List Cmd := kindValues s s.chatContextMenuCommands

/-- `CommandsModule.export` (named `exportCommands` here because `export` is
reserved): fold the forEach body over the slash commands, then append the
group parents (object value order = first-encounter order), then the
user-context-menu entries, then the chat-context-menu entries. -/
def exportCommands (s : ModuleState) : List IDiscordApiCommand :=
  let acc := (slashListOf s).foldl exportStep ([], [])
  acc.2 ++ acc.1.map Prod.snd
    ++ (userListOf s).map menuEntryOf
    ++ (chatListOf s).map menuEntryOf

/-- The group names contributed by a command list, with multiplicity, in
order. -/
def groupKeyList (l : List Cmd) : List String :=
  l.filterMap (fun c => if 0 < c.group.length then some c.group else none)

/-- First occurrence of each element, keeping order of first appearance. -/
def firstOcc : List String → List String
  | [] => []
  | g :: gs => g :: (firstOcc gs).filter (fun x => !(x == g))

/-- The distinct non-empty groups of a command list, in first-encounter
order. -/
def groupedKeys (l : List Cmd) : List String := firstOcc (groupKeyList l)

/-- The sub-command entries of one group, in command iteration order. -/
def subEntriesFor (l : List Cmd) (g : String) : List SubEntry :=
  (l.filter (fun c => c.group == g)).map subEntryOf

/-- Modelled from the spec: the parent entry of one non-empty group, whose
sub-options are the member commands in order. -/
def groupParentFor (l : List Cmd) (g : String) : IDiscordApiCommand :=
  { name := g, description := some (g ++ interfaceSuffix),
    options := some (.subs (subEntriesFor l g)) }

/-- Modelled from the spec: the export snapshot described in the spec —
ungrouped slash commands as top-level entries, one parent entry per distinct
non-empty group holding its members as sub-commands, then all
user-context-menu and chat-context-menu commands as top-level entries. -/
def exportPerSpec (slashL userL chatL : List Cmd) : List IDiscordApiCommand :=
  (slashL.filter (fun c => !(0 < c.group.length : Bool))).map topSlashEntryOf
    ++ (groupedKeys slashL).map (groupParentFor slashL)
    ++ userL.map menuEntryOf
    ++ chatL.map menuEntryOf

/-- The shape of the data carried by an axios error: `isAxiosError` is true,
and `response` may be absent (network-level failures have none); when a
response exists, `response.data.errors` is the remote error detail that gets
logged. -/
inductive UploadFailure
  | axios (respErrors : Option String)
  | other (msg : String)
deriving DecidableEq, Repr

/-- A log line of `uploadCommands`. -/
inductive UploadLog
  | errorUploading (detail : String)
deriving DecidableEq, Repr

/-- A JS runtime error escaping a handler. -/
inductive JsError
  | typeErrorUndefinedRead
deriving DecidableEq, Repr

/-- The application-scoped upload endpoint. -/
def globalCommandsUrl : String :=
  "https://discord.com/api/v10/applications/895104527001354313/commands"

/-- The guild-scoped upload endpoint pieces. -/
def guildCommandsUrlPre : String :=
  "https://discord.com/api/v10/applications/895104527001354313/guilds/"

/-- The guild-scoped upload endpoint suffix. -/
def guildCommandsUrlPost : String := "/commands"

/-- The PUT request `uploadCommands` issues: endpoint selected by the
optional guild id, payload the export snapshot. -/
structure PutRequest where
  url : String
  payload : List IDiscordApiCommand
deriving DecidableEq, Repr

/-- The request built by `uploadCommands` for a module state and optional
guild. -/
def uploadRequest (s : ModuleState) (guild : Option String) : PutRequest :=
  { url := match guild with
      | some g => guildCommandsUrlPre ++ g ++ guildCommandsUrlPost
      | none => globalCommandsUrl,
    payload := exportCommands s }

/-- `CommandsModule.uploadCommands`, given the outcome of the awaited
`axios.put`: on success nothing is logged; on failure the catch block logs
`error.response.data.errors` when `error.isAxiosError` holds — reading
`.data` off an absent `response` raises a TypeError that escapes the catch —
and swallows (without logging) errors that are not axios errors. -/
def uploadCommands (s : ModuleState) (guild : Option String)
    (putResult : Except UploadFailure Unit) : Except JsError (PutRequest × List UploadLog) :=
  match putResult with
  | .ok _ => .ok (uploadRequest s guild, [])
  | .error e =>
    match e with
    | .axios (some detail) => .ok (uploadRequest s guild, [.errorUploading detail])
    | .axios none => .error .typeErrorUndefinedRead
    | .other _ => .ok (uploadRequest s guild, [])

/-- A chat-context-menu descriptor used in concrete registry states. -/
def cmdPin : Cmd :=
  { name := "pin", type := .chatContextMenu, description := "pin the message", state := .loaded }

/-- A user-context-menu descriptor used in concrete registry states. -/
def cmdReport : Cmd :=
  { name := "report", type := .userContextMenu, description := "report the user", state := .loaded }

/-- A registry holding the chat-context-menu command `pin` and the
user-context-menu command `report`, each in its own kind table. -/
def c2Cmds : ModuleState :=
  { heap := [(0, cmdPin), (1, cmdReport)],
    nextId := 2,
    commands := [(cmdPin.uniqueId, 0), (cmdReport.uniqueId, 1)],
    chatContextMenuCommands := [("pin", 0)],
    userContextMenuCommands := [("report", 1)] }

/-- C2: the claim says `getChatContextMenuCommand` is a pure lookup in the
chat-context-menu table that never returns a descriptor of a different
kind.  The source body reads `this.userContextMenuCommands` instead: on a
registry holding chat command `pin` and user command `report`, looking up
`pin` misses although the chat table holds it, and looking up `report`
returns the user-context-menu descriptor — a descriptor of a different
kind. -/
theorem getChatContextMenuCommand_reads_user_table :
    getChatContextMenuCommand c2Cmds ("pin") = none
    ∧ mapGet c2Cmds.chatContextMenuCommands ("pin") = some 0
    ∧ getChatContextMenuCommand c2Cmds ("report") = some 1
    ∧ (mapGet c2Cmds.heap 1).map Cmd.type = some ECommandType.userContextMenu := by
  refine ⟨?_, ?_, ?_, ?_⟩ <;> decide

/-- The slash descriptor registered at the watched path before the reload. -/
def cmdOldA : Cmd := { name := "a", type := .slash, description := "old", state := .loaded }

/-- The slash descriptor produced by re-importing the watched path. -/
def cmdNewA : Cmd := { name := "a", type := .slash, description := "new" }

/-- The watched path of the reload scenario. -/
def pathA : String := "/commands/a.js"

/-- A registry tracking `pathA`, whose debounce timer for that path is about
to fire. -/
def c3Start : ModuleState :=
  { heap := [(0, cmdOldA)], nextId := 1,
    commands := [(cmdOldA.uniqueId, 0)],
    slashCommands := [("a", 0)],
    pathsToCommands := [(pathA, 0)],
    pendingFileUpdate := [(pathA, Timer.mk 10000 true)] }

/-- The registry after the debounce timer fires and the path re-imports
successfully. -/
def c3After : ModuleState := onTimerFire c3Start pathA (some cmdNewA)

/-- C3: the claim says that after a file-change reload the path map binds the
path to the newly imported descriptor and holds no reference to the
destroyed one.  The reload calls `importCommand(path, plugin, false)` and the
`bWatch = false` branch skips `pathsToCommands.set`, so the path map still
binds the destroyed descriptor 0 while the new descriptor 1 lives only in
the kind map. -/
theorem reload_leaves_stale_path_binding :
    mapGet c3After.pathsToCommands pathA = some 0
    ∧ mapGet c3After.heap 0 = some { cmdOldA with state := .destroyed }
    ∧ mapGet c3After.slashCommands ("a") = some 1
    ∧ mapGet c3After.heap 1 = some { cmdNewA with state := .loaded }
    ∧ mapGet c3After.pendingFileUpdate pathA = none := by
  refine ⟨?_, ?_, ?_, ?_, ?_⟩ <;> decide

/-- The slash descriptor at the watched path, currently being destroyed. -/
def cmdBusyB : Cmd := { name := "b", type := .slash, description := "busy", state := .destroying }

/-- The module a reload of the path would produce. -/
def cmdNewB : Cmd := { name := "b", type := .slash, description := "fresh" }

/-- The watched path of the destroy-race scenario. -/
def pathB : String := "/commands/b.js"

/-- A registry whose debounce timer for `pathB` is about to fire while the
descriptor at that path is in the Destroying state. -/
def c5Start : ModuleState :=
  { heap := [(0, cmdBusyB)], nextId := 1,
    commands := [(cmdBusyB.uniqueId, 0)],
    slashCommands := [("b", 0)],
    pathsToCommands := [(pathB, 0)],
    pendingFileUpdate := [(pathB, Timer.mk 10000 true)] }

/-- The timer fires while the descriptor is Destroying: the reload aborts. -/
def c5Fire1 : ModuleState := onTimerFire c5Start pathB (some cmdNewB)

/-- A later change event for the same path. -/
def c5Changed : ModuleState := onCommandFileChanged c5Fire1 pathB 50000

/-- The refreshed timer fires again. -/
def c5Fire2 : ModuleState := onTimerFire c5Changed pathB (some cmdNewB)

/-- C5: the first half of the claim holds — when the timer fires on a
Destroying descriptor no second destroy and no re-import happen — but the
early return leaves the resolved pending entry in `pendingFileUpdate`, so
the subsequent change event only refreshes a timer whose promise has already
resolved, and its firing performs no reload at all: the claimed fresh reload
attempt never happens. -/
theorem destroying_skip_blocks_future_reloads :
    c5Fire1.trace = []
    ∧ c5Fire1.heap = c5Start.heap
    ∧ c5Fire1.slashCommands = c5Start.slashCommands
    ∧ mapGet c5Fire1.pendingFileUpdate pathB = some (Timer.mk 10000 false)
    ∧ mapGet c5Changed.pendingFileUpdate pathB
        = some (Timer.mk (50000 + FILE_UPDATE_TIMEOUT) false)
    ∧ c5Fire2 = c5Changed := by
  refine ⟨?_, ?_, ?_, ?_, ?_, ?_⟩ <;> decide

/-- A remote error detail as found in `error.response.data.errors`. -/
def c10Detail : String := "APPLICATION_COMMANDS_INVALID_BODY"

/-- The registry used for the upload scenario. -/
def c10State : ModuleState := {}

/-- C10: the claim says every upload failure is logged and swallowed.  A
rejection carrying a response is indeed logged and swallowed, and a
non-axios failure is swallowed, but an axios error without a response — the
shape of every network-level failure — makes the catch handler read
`error.response.data`, raising a TypeError that escapes `uploadCommands`. -/
theorem upload_axios_without_response_throws :
    uploadCommands c10State none (Except.error (UploadFailure.axios none))
      = Except.error JsError.typeErrorUndefinedRead
    ∧ uploadCommands c10State none (Except.error (UploadFailure.axios (some c10Detail)))
      = Except.ok (uploadRequest c10State none, [UploadLog.errorUploading c10Detail])
    ∧ uploadCommands c10State (some ("42")) (Except.error (UploadFailure.other ("socket hang up")))
      = Except.ok (uploadRequest c10State (some ("42")), []) := by
  refine ⟨rfl, rfl, rfl⟩

/-- The grouped slash commands of the resolution scenario. -/
def cmdAddSub : Cmd :=
  { name := "add", type := .slash, description := "add an entry", group := "list", state := .loaded }

/-- The second grouped slash command of the resolution scenario. -/
def cmdRemoveSub : Cmd :=
  { name := "remove", type := .slash, description := "remove an entry", group := "list", state := .loaded }

/-- An ungrouped slash command of the resolution scenario. -/
def cmdPing : Cmd := { name := "ping", type := .slash, description := "pong", state := .loaded }

/-- A registry with slash commands `ping`, `add` and `remove` (the latter two
grouped under `list`); no slash command is registered under the group name
itself. -/
def c7State : ModuleState :=
  { heap := [(0, cmdPing), (1, cmdAddSub), (2, cmdRemoveSub)],
    nextId := 3,
    commands := [(cmdPing.uniqueId, 0), (cmdAddSub.uniqueId, 1), (cmdRemoveSub.uniqueId, 2)],
    slashCommands := [("ping", 0), ("add", 1), ("remove", 2)] }

/-- C7: slash interactions are resolved by the carried sub-command name when
one is present, and only otherwise by the top-level command name; in
particular an interaction carrying sub-command `add` under the grouped
command `list` resolves to the `add` descriptor even though `list` itself is
not a registered slash name. -/
theorem slash_resolution_prefers_subcommand (s : ModuleState) (sub cmdName : String)
    (h : sub ≠ "") :
    resolveInteraction s (.slash (some sub) cmdName) = mapGet s.slashCommands sub
    ∧ resolveInteraction s (.slash none cmdName) = mapGet s.slashCommands cmdName
    ∧ resolveInteraction c7State (.slash (some ("add")) ("list")) = some 1
    ∧ mapGet c7State.slashCommands ("list") = none := by
  refine ⟨?_, ?_, ?_, ?_⟩
  · simp [resolveInteraction, jsTruthy, h]
  · simp [resolveInteraction, jsTruthy]
  · decide
  · decide

/-- Witness for C7 at sub-command `add` carried under top-level name
`list`. -/
theorem slash_resolution_prefers_subcommand_witness :
    (("add" : String) ≠ "")
    ∧ (resolveInteraction c7State (.slash (some ("add")) ("list"))
        = mapGet c7State.slashCommands ("add")
      ∧ resolveInteraction c7State (.slash none ("list"))
        = mapGet c7State.slashCommands ("list")
      ∧ resolveInteraction c7State (.slash (some ("add")) ("list")) = some 1
      ∧ mapGet c7State.slashCommands ("list") = none) :=
  ⟨by decide, slash_resolution_prefers_subcommand c7State ("add") ("list") (by decide)⟩

/-- C8 counterexample: the legacy events-module dispatcher, at an inbound
command interaction whose name resolves to no registered command, produces a
user-visible reply — dispatch there is not a silent no-op. -/
theorem legacy_dispatch_replies_on_unresolved :
    legacyOnInteractionCreate true none = [LegacyAction.reply notImplementedMsg]
    ∧ legacyOnInteractionCreate true none ≠ [] := by
  refine ⟨rfl, by decide⟩

/-- C8 (amended): in the `CommandsModule` dispatcher an interaction that
resolves to no registered descriptor is a silent no-op — no execution and no
reply (and the handler, being a total catch-wrapped fallthrough, throws
nothing) — while the legacy events-module dispatcher instead replies with
the not-implemented message. -/
theorem module_dispatch_silent_on_unresolved (s : ModuleState) (i : Interaction)
    (h : resolveInteraction s i = none) :
    onInteractionCreate s i = []
    ∧ legacyOnInteractionCreate true none = [LegacyAction.reply notImplementedMsg] := by
  refine ⟨?_, rfl⟩
  cases i <;> simp_all [onInteractionCreate]

/-- An empty registry resolves nothing. -/
def c8State : ModuleState := {}

/-- Witness for C8 at a slash interaction for an unregistered name on an
empty registry. -/
theorem module_dispatch_silent_on_unresolved_witness :
    resolveInteraction c8State (Interaction.slash none ("nope")) = none
    ∧ (onInteractionCreate c8State (Interaction.slash none ("nope")) = []
      ∧ legacyOnInteractionCreate true none = [LegacyAction.reply notImplementedMsg]) :=
  ⟨rfl, module_dispatch_silent_on_unresolved c8State (Interaction.slash none ("nope")) rfl⟩

/-- C9: an import whose module is malformed or whose constructor throws is
caught: the only change to the module state is one logged import error
naming the failing path — every lookup table, the heap and the id counter
are untouched — and an import batch containing such a file still performs
all imports after it. -/
theorem importCommand_failure_isolated (s : ModuleState) (p : String) (plugin : Option String)
    (w : Bool) (pre post : List (String × Option Cmd))
    (hjs : strEndsWith p jsExt = true) :
    importCommand s p none plugin w = { s with trace := s.trace ++ [Event.importError p] }
    ∧ onLoadBatch s (pre ++ (p, (none : Option Cmd)) :: post)
      = onLoadBatch (importCommand (onLoadBatch s pre) p none none true) post := by
  constructor
  · simp [importCommand, hjs]
  · simp [onLoadBatch, List.foldl_append]

/-- A well-formed module used around the failing one in the witness batch. -/
def cmdGood1 : Cmd := { name := "good1", type := .slash, description := "first" }

/-- A second well-formed module used in the witness batch. -/
def cmdGood2 : Cmd := { name := "good2", type := .slash, description := "second" }

/-- Witness for C9: a failing import at a concrete path, in a batch between
two well-formed modules. -/
theorem importCommand_failure_isolated_witness :
    strEndsWith ("/commands/bad.js") jsExt = true
    ∧ (importCommand c8State ("/commands/bad.js") none none true
        = { c8State with trace := c8State.trace ++ [Event.importError ("/commands/bad.js")] }
      ∧ onLoadBatch c8State
          ([(("/commands/good1.js" : String), some cmdGood1)]
            ++ (("/commands/bad.js" : String), (none : Option Cmd))
              :: [(("/commands/good2.js" : String), some cmdGood2)])
        = onLoadBatch
            (importCommand (onLoadBatch c8State [(("/commands/good1.js" : String), some cmdGood1)])
              ("/commands/bad.js") none none true)
            [(("/commands/good2.js" : String), some cmdGood2)]) :=
  ⟨by decide,
    importCommand_failure_isolated c8State ("/commands/bad.js") none true
      [(("/commands/good1.js" : String), some cmdGood1)]
      [(("/commands/good2.js" : String), some cmdGood2)] (by decide)⟩

/-- C1: for any registry state, when `addCommand` receives a descriptor whose
`(kind, name)` slot is occupied, the trace it appends is exactly the
completed destruction of the occupant, then the insertion of the new
descriptor into the kind map, then the load of the new descriptor: the old
occupant is fully destroyed before the new one is inserted or loaded, so
there is no instant at which both are loaded, and afterwards the slot is
bound to the new descriptor alone (key distinctness of the kind map is
preserved, so each `(kind, name)` key binds at most one descriptor). -/
theorem addCommand_destroy_before_insert_and_load (s : ModuleState) (id oldId : Nat) (c : Cmd)
    (hold : mapGet (kindMap s c.type) c.name = some oldId) :
    (addCommand s id c).trace
      = s.trace ++ [Event.destroyStart oldId, Event.destroyEnd oldId,
          Event.insertKind c.type c.name id, Event.loadStart id, Event.loadEnd id]
    ∧ mapGet (kindMap (addCommand s id c) c.type) c.name = some id
    ∧ (((kindMap s c.type).map Prod.fst).Nodup
        → ((kindMap (addCommand s id c) c.type).map Prod.fst).Nodup) := by
  cases hct : c.type
  all_goals rw [hct] at hold
  all_goals simp only [kindMap] at hold ⊢
  all_goals refine ⟨?_, ?_, fun hnd => ?_⟩
  all_goals simp [addCommand, addSlashCommand, addUserContextMenuCommand,
    addChatContextMenuCommand, destroyCmd, loadCmd, hct, hold, mapGet_mapSet_self]
  all_goals exact keys_nodup_mapSet _ _ _ hnd

/-- The descriptor occupying the `ping` slash slot before the colliding
add. -/
def cmdPingOld : Cmd := { name := "ping", type := .slash, description := "old pong", state := .loaded }

/-- A registry whose slash table already binds `ping`. -/
def c1State : ModuleState :=
  { heap := [(0, cmdPingOld)], nextId := 1,
    commands := [(cmdPingOld.uniqueId, 0)],
    slashCommands := [("ping", 0)] }

/-- Witness for C1: adding a second `ping` slash command over an occupied
slot. -/
theorem addCommand_destroy_before_insert_and_load_witness :
    mapGet (kindMap c1State cmdPing.type) cmdPing.name = some 0
    ∧ ((addCommand c1State 1 cmdPing).trace
        = c1State.trace ++ [Event.destroyStart 0, Event.destroyEnd 0,
            Event.insertKind cmdPing.type cmdPing.name 1, Event.loadStart 1, Event.loadEnd 1]
      ∧ mapGet (kindMap (addCommand c1State 1 cmdPing) cmdPing.type) cmdPing.name = some 1
      ∧ (((kindMap c1State cmdPing.type).map Prod.fst).Nodup
          → ((kindMap (addCommand c1State 1 cmdPing) cmdPing.type).map Prod.fst).Nodup)) :=
  ⟨by decide, addCommand_destroy_before_insert_and_load c1State 1 0 cmdPing (by decide)⟩

/-- The last element of a burst `t :: ts` of event instants. -/
def lastOf (t : Nat) (ts : List Nat) : Nat := ts.foldl (fun _ b => b) t

/-- The deadline of the pending timer after a sequence of refreshes. -/
def finalDeadline (d : Nat) (ts : List Nat) : Nat :=
  ts.foldl (fun _ b => b + FILE_UPDATE_TIMEOUT) d

theorem finalDeadline_eq_lastOf (ts : List Nat) :
    ∀ t, finalDeadline (t + FILE_UPDATE_TIMEOUT) ts = lastOf t ts + FILE_UPDATE_TIMEOUT := by
  induction ts with
  | nil => intro t; rfl
  | cons t2 rest ih => intro t; exact ih t2

theorem runBurst_pending (ts : List Nat) :
    ∀ (base : List (String × Timer)) (s : ModuleState) (p : String) (d : Nat),
      s.pendingFileUpdate = mapSet base p (Timer.mk d true) →
      runBurst s p ts
        = { s with pendingFileUpdate := mapSet base p (Timer.mk (finalDeadline d ts) true) } := by
  induction ts with
  | nil =>
    intro base s p d h
    show s = { s with pendingFileUpdate := mapSet base p (Timer.mk d true) }
    rw [← h]
  | cons t rest ih =>
    intro base s p d h
    have hget : mapGet s.pendingFileUpdate p = some (Timer.mk d true) := by
      rw [h]; exact mapGet_mapSet_self base p (Timer.mk d true)
    have hstep : onCommandFileChanged s p t
        = { s with pendingFileUpdate := mapSet base p (Timer.mk (t + FILE_UPDATE_TIMEOUT) true) } := by
      simp [onCommandFileChanged, hget, h, mapSet_mapSet_self, mapGet_mapSet_self]
    show runBurst (onCommandFileChanged s p t) p rest = _
    rw [hstep]
    exact ih base _ p (t + FILE_UPDATE_TIMEOUT) rfl

theorem applyPlugin_name (pl : Option String) (c : Cmd) : (applyPlugin pl c).name = c.name := by
  cases pl <;> rfl

theorem applyPlugin_type (pl : Option String) (c : Cmd) : (applyPlugin pl c).type = c.type := by
  cases pl <;> rfl

/-- When the debounce continuation runs on a tracked path whose descriptor is
not Destroying and whose module re-imports under the same name and kind, the
reload destroys the old descriptor (the kind-map insert destroys the map
occupant a second time — it is the same already-destroyed object), allocates
and loads exactly one new descriptor, binds the slot to it, and clears the
pending entry. -/
theorem fileChangedResume_reload (s : ModuleState) (p : String) (id : Nat) (c m : Cmd)
    (hpath : mapGet s.pathsToCommands p = some id)
    (hheap : mapGet s.heap id = some c)
    (hstate : ¬ c.state = ELoadableState.destroying)
    (hjs : strEndsWith p jsExt = true)
    (hkind : mapGet (kindMap s c.type) c.name = some id)
    (hname : m.name = c.name) (htype : m.type = c.type) :
    (fileChangedResume s p (some m)).trace
      = s.trace ++ [Event.destroyStart id, Event.destroyEnd id, Event.destroyStart id,
          Event.destroyEnd id, Event.insertKind c.type c.name s.nextId,
          Event.loadStart s.nextId, Event.loadEnd s.nextId]
    ∧ mapGet (fileChangedResume s p (some m)).pendingFileUpdate p = none
    ∧ mapGet (kindMap (fileChangedResume s p (some m)) c.type) c.name = some s.nextId := by
  cases hct : c.type
  all_goals rw [hct] at hkind htype
  all_goals simp only [kindMap] at hkind ⊢
  all_goals refine ⟨?_, ?_, ?_⟩
  all_goals simp [fileChangedResume, hpath, hheap, hstate, importCommand, hjs, destroyCmd,
    addCommand, addSlashCommand, addUserContextMenuCommand, addChatContextMenuCommand,
    loadCmd, applyPlugin_name, applyPlugin_type, hname, htype, hkind, hct,
    mapGet_mapSet_self, mapGet_mapDelete_self]

/-- C4: for a burst of change events on one tracked path, each event within
the debounce window of the previous one, the burst itself performs no reload
at all and leaves a single pending timer for the path whose deadline is
`FILE_UPDATE_TIMEOUT` (ten seconds) after the last event of the burst —
repeated events reset that one timer rather than scheduling another — and
when that timer fires, exactly one reload runs: the old descriptor destroyed,
one new descriptor imported, inserted and loaded, and the pending entry
cleared. -/
theorem debounced_burst_single_reload (s : ModuleState) (p : String) (t : Nat) (ts : List Nat)
    (id : Nat) (c m : Cmd)
    (h0 : mapGet s.pendingFileUpdate p = none)
    (hchain : List.Chain (fun a b => a ≤ b ∧ b < a + FILE_UPDATE_TIMEOUT) t ts)
    (hpath : mapGet s.pathsToCommands p = some id)
    (hheap : mapGet s.heap id = some c)
    (hstate : ¬ c.state = ELoadableState.destroying)
    (hjs : strEndsWith p jsExt = true)
    (hkind : mapGet (kindMap s c.type) c.name = some id)
    (hname : m.name = c.name) (htype : m.type = c.type) :
    runBurst s p (t :: ts)
      = { s with pendingFileUpdate :=
            mapSet s.pendingFileUpdate p (Timer.mk (lastOf t ts + FILE_UPDATE_TIMEOUT) true) }
    ∧ (runBurst s p (t :: ts)).trace = s.trace
    ∧ (onTimerFire (runBurst s p (t :: ts)) p (some m)).trace
        = s.trace ++ [Event.destroyStart id, Event.destroyEnd id, Event.destroyStart id,
            Event.destroyEnd id, Event.insertKind c.type c.name s.nextId,
            Event.loadStart s.nextId, Event.loadEnd s.nextId]
    ∧ mapGet (onTimerFire (runBurst s p (t :: ts)) p (some m)).pendingFileUpdate p = none
    ∧ mapGet (kindMap (onTimerFire (runBurst s p (t :: ts)) p (some m)) c.type) c.name
        = some s.nextId := by
  have hstep1 : onCommandFileChanged s p t
      = { s with pendingFileUpdate :=
            mapSet s.pendingFileUpdate p (Timer.mk (t + FILE_UPDATE_TIMEOUT) true) } := by
    simp [onCommandFileChanged, h0]
  have hb : runBurst s p (t :: ts)
      = { s with pendingFileUpdate :=
            mapSet s.pendingFileUpdate p (Timer.mk (lastOf t ts + FILE_UPDATE_TIMEOUT) true) } := by
    show runBurst (onCommandFileChanged s p t) p ts = _
    rw [hstep1, runBurst_pending ts s.pendingFileUpdate _ p (t + FILE_UPDATE_TIMEOUT) rfl,
      finalDeadline_eq_lastOf]
  have hfire : onTimerFire (runBurst s p (t :: ts)) p (some m)
      = fileChangedResume
          { s with pendingFileUpdate :=
              mapSet s.pendingFileUpdate p (Timer.mk (lastOf t ts + FILE_UPDATE_TIMEOUT) false) }
          p (some m) := by
    rw [hb]
    simp [onTimerFire, mapGet_mapSet_self, mapSet_mapSet_self]
  obtain ⟨r1, r2, r3⟩ :=
    fileChangedResume_reload
      { s with pendingFileUpdate :=
          mapSet s.pendingFileUpdate p (Timer.mk (lastOf t ts + FILE_UPDATE_TIMEOUT) false) }
      p id c m hpath hheap hstate hjs hkind hname htype
  refine ⟨hb, by rw [hb], ?_, ?_, ?_⟩
  · rw [hfire]; exact r1
  · rw [hfire]; exact r2
  · rw [hfire]; exact r3

/-- The descriptor watched in the burst scenario. -/
def cmdWatch : Cmd := { name := "w", type := .slash, description := "watched", state := .loaded }

/-- The re-imported module of the burst scenario. -/
def cmdNewW : Cmd := { name := "w", type := .slash, description := "rewatched" }

/-- The tracked path of the burst scenario. -/
def pathW : String := "/commands/w.js"

/-- A registry tracking `pathW` with no pending timer. -/
def c4State : ModuleState :=
  { heap := [(0, cmdWatch)], nextId := 1,
    commands := [(cmdWatch.uniqueId, 0)],
    slashCommands := [("w", 0)],
    pathsToCommands := [(pathW, 0)] }

/-- Witness for C4: a burst of three change events at 1000, 6000 and 11000
milliseconds, each within the ten-second window of its predecessor. -/
theorem debounced_burst_single_reload_witness :
    mapGet c4State.pendingFileUpdate pathW = none
    ∧ List.Chain (fun a b => a ≤ b ∧ b < a + FILE_UPDATE_TIMEOUT) 1000 [6000, 11000]
    ∧ mapGet c4State.pathsToCommands pathW = some 0
    ∧ mapGet c4State.heap 0 = some cmdWatch
    ∧ ¬ cmdWatch.state = ELoadableState.destroying
    ∧ strEndsWith pathW jsExt = true
    ∧ mapGet (kindMap c4State cmdWatch.type) cmdWatch.name = some 0
    ∧ cmdNewW.name = cmdWatch.name
    ∧ cmdNewW.type = cmdWatch.type
    ∧ (runBurst c4State pathW (1000 :: [6000, 11000])
        = { c4State with pendingFileUpdate :=
              (mapSet c4State.pendingFileUpdate pathW
                (Timer.mk (lastOf 1000 [6000, 11000] + FILE_UPDATE_TIMEOUT) true)) }
      ∧ (runBurst c4State pathW (1000 :: [6000, 11000])).trace = c4State.trace
      ∧ (onTimerFire (runBurst c4State pathW (1000 :: [6000, 11000])) pathW (some cmdNewW)).trace
          = c4State.trace ++ [Event.destroyStart 0, Event.destroyEnd 0, Event.destroyStart 0,
              Event.destroyEnd 0, Event.insertKind cmdWatch.type cmdWatch.name c4State.nextId,
              Event.loadStart c4State.nextId, Event.loadEnd c4State.nextId]
      ∧ mapGet (onTimerFire (runBurst c4State pathW (1000 :: [6000, 11000])) pathW
            (some cmdNewW)).pendingFileUpdate pathW = none
      ∧ mapGet (kindMap (onTimerFire (runBurst c4State pathW (1000 :: [6000, 11000])) pathW
            (some cmdNewW)) cmdWatch.type) cmdWatch.name = some c4State.nextId) :=
  ⟨by decide,
    List.Chain.cons (by decide) (List.Chain.cons (by decide) List.Chain.nil),
    by decide, by decide, by decide, by decide, by decide, by decide, by decide,
    debounced_burst_single_reload c4State pathW 1000 [6000, 11000] 0 cmdWatch cmdNewW
      (by decide)
      (List.Chain.cons (by decide) (List.Chain.cons (by decide) List.Chain.nil))
      (by decide) (by decide) (by decide) (by decide) (by decide)
      (by decide) (by decide)⟩

theorem mem_firstOcc (xs : List String) (x : String) : x ∈ firstOcc xs ↔ x ∈ xs := by
  induction xs with
  | nil => simp [firstOcc]
  | cons g gs ih =>
    by_cases hx : x = g
    · subst hx; simp [firstOcc]
    · simp [firstOcc, List.mem_filter, hx, ih, bne_iff_ne]

theorem nodup_firstOcc (xs : List String) : (firstOcc xs).Nodup := by
  induction xs with
  | nil => simp [firstOcc]
  | cons g gs ih =>
    simp only [firstOcc, List.nodup_cons]
    refine ⟨?_, ih.filter _⟩
    intro hmem
    have h2 := (List.mem_filter.mp hmem).2
    simp [bne_iff_ne] at h2

theorem firstOcc_append_single (xs : List String) (g : String) :
    firstOcc (xs ++ [g]) = firstOcc xs ++ (if g ∈ xs then [] else [g]) := by
  induction xs with
  | nil => simp [firstOcc]
  | cons x xs2 ih =>
    have hun : firstOcc ((x :: xs2) ++ [g])
        = x :: (firstOcc (xs2 ++ [g])).filter (fun y => !(y == x)) := rfl
    rw [hun, ih]
    by_cases hmem : g ∈ xs2 <;> by_cases hgx : g = x <;>
      simp [List.filter_append, hmem, hgx, firstOcc, List.filter_cons]

theorem mapGet_graph {K V : Type} [DecidableEq K] (ks : List K) (F : K → V) (k : K) :
    mapGet (ks.map (fun g => (g, F g))) k = if k ∈ ks then some (F k) else none := by
  induction ks with
  | nil => simp [mapGet]
  | cons g gs ih =>
    by_cases h : g = k
    · subst h; simp [mapGet]
    · simp [mapGet, h, ih, Ne.symm h]

theorem mapSet_graph_mem {K V : Type} [DecidableEq K] (ks : List K) (F : K → V) (k : K) (v : V)
    (hnd : ks.Nodup) (hk : k ∈ ks) :
    mapSet (ks.map (fun g => (g, F g))) k v
      = ks.map (fun g => (g, if g = k then v else F g)) := by
  induction ks with
  | nil => cases hk
  | cons g gs ih =>
    rcases List.nodup_cons.mp hnd with ⟨hng, hnd2⟩
    by_cases h : g = k
    · subst h
      simp only [List.map_cons, mapSet, if_pos rfl]
      have h2 : ∀ g2 ∈ gs, (fun g3 => (g3, F g3)) g2 = (fun g3 => (g3, if g3 = g then v else F g3)) g2 := by
        intro g2 hg2
        have : g2 ≠ g := fun he => hng (he ▸ hg2)
        simp [this]
      simp [List.map_congr_left h2]
    · have hk2 : k ∈ gs := by
        rcases List.mem_cons.mp hk with h3 | h3
        · exact absurd h3.symm h
        · exact h3
      simp [mapSet, h, ih hnd2 hk2]

theorem groupKeyList_append (l1 l2 : List Cmd) :
    groupKeyList (l1 ++ l2) = groupKeyList l1 ++ groupKeyList l2 := by
  simp [groupKeyList, List.filterMap_append]

theorem mem_groupKeyList (l : List Cmd) (g : String) :
    g ∈ groupKeyList l ↔ ∃ c, c ∈ l ∧ 0 < c.group.length ∧ c.group = g := by
  simp only [groupKeyList, List.mem_filterMap]
  constructor
  · rintro ⟨c, hc, hf⟩
    by_cases h : 0 < c.group.length
    · rw [if_pos h] at hf
      exact ⟨c, hc, h, Option.some.inj hf⟩
    · rw [if_neg h] at hf
      cases hf
  · rintro ⟨c, hc, h, rfl⟩
    exact ⟨c, hc, if_pos h⟩

theorem groupKeyList_pos (l : List Cmd) (g : String) (h : g ∈ groupKeyList l) : 0 < g.length := by
  rcases (mem_groupKeyList l g).mp h with ⟨c, _, hlen, rfl⟩
  exact hlen

theorem subEntriesFor_append (l1 l2 : List Cmd) (g : String) :
    subEntriesFor (l1 ++ l2) g = subEntriesFor l1 g ++ subEntriesFor l2 g := by
  simp [subEntriesFor, List.filter_append]

theorem subEntriesFor_single (c : Cmd) (g : String) :
    subEntriesFor [c] g = if (c.group == g) = true then [subEntryOf c] else [] := by
  by_cases h : (c.group == g) = true <;> simp [subEntriesFor, List.filter_cons, h]

theorem getSubs_groupParentFor (l : List Cmd) (g : String) :
    getSubs (groupParentFor l g) = subEntriesFor l g := rfl

theorem subEntriesFor_not_mem (l : List Cmd) (g : String) (hg : 0 < g.length)
    (h : ¬ g ∈ groupKeyList l) : subEntriesFor l g = [] := by
  simp only [subEntriesFor, List.map_eq_nil_iff]
  refine List.filter_eq_nil_iff.mpr ?_
  intro c hc hbeq
  have he : c.group = g := by simpa using hbeq
  exact h ((mem_groupKeyList l g).mpr ⟨c, hc, he ▸ hg, he⟩)

/-- The closed form of the `slashCommands.forEach` fold of
`CommandsModule.export`: starting from the groups object and top-level list
that a prefix `done` of the iteration would have produced, processing `l`
extends them to the object and list of `done ++ l` — the groups object holds
exactly one entry per distinct non-empty group, in first-encounter order,
whose options are the sub-entries of the member commands in order, and the
top-level list gains exactly the ungrouped commands in order. -/
theorem exportFold_char (l : List Cmd) :
    ∀ (done : List Cmd) (out : List IDiscordApiCommand),
      l.foldl exportStep ((groupedKeys done).map (fun g => (g, groupParentFor done g)), out)
        = ((groupedKeys (done ++ l)).map (fun g => (g, groupParentFor (done ++ l) g)),
            out ++ (l.filter (fun c => !(0 < c.group.length : Bool))).map topSlashEntryOf) := by
  induction l with
  | nil =>
    intro done out
    simp
  | cons c rest ih =>
    intro done out
    rw [List.foldl_cons]
    by_cases hgr : 0 < c.group.length
    · have hkeys : groupKeyList (done ++ [c]) = groupKeyList done ++ [c.group] := by
        simp [groupKeyList_append, groupKeyList, hgr]
      by_cases hmem : c.group ∈ groupedKeys done
      · have hmem2 : c.group ∈ groupKeyList done := (mem_firstOcc _ _).mp hmem
        have hgk : groupedKeys (done ++ [c]) = groupedKeys done := by
          simp [groupedKeys, hkeys, firstOcc_append_single, hmem2]
        have hget : mapGet ((groupedKeys done).map (fun g => (g, groupParentFor done g))) c.group
            = some (groupParentFor done c.group) := by
          rw [mapGet_graph, if_pos hmem]
        have hset : mapSet ((groupedKeys done).map (fun g => (g, groupParentFor done g))) c.group
              (pushSub (groupParentFor done c.group) (subEntryOf c))
            = (groupedKeys done).map
                (fun g => (g, if g = c.group
                  then pushSub (groupParentFor done c.group) (subEntryOf c)
                  else groupParentFor done g)) :=
          mapSet_graph_mem (groupedKeys done) (fun g => groupParentFor done g) c.group
            (pushSub (groupParentFor done c.group) (subEntryOf c)) (nodup_firstOcc _) hmem
        have hstep : exportStep ((groupedKeys done).map (fun g => (g, groupParentFor done g)), out) c
            = ((groupedKeys (done ++ [c])).map (fun g => (g, groupParentFor (done ++ [c]) g)), out) := by
          simp only [exportStep, if_pos hgr, hget, hset, hgk]
          refine Prod.ext ?_ rfl
          simp only
          refine List.map_congr_left ?_
          intro g hg
          by_cases hgc : g = c.group
          · subst hgc
            simp [pushSub, getSubs, groupParentFor, subEntriesFor_append,
              subEntriesFor_single]
          · have hbeq : (c.group == g) = false :=
              beq_eq_false_iff_ne.mpr (fun he => hgc he.symm)
            simp [hgc, groupParentFor, subEntriesFor_append, subEntriesFor_single, hbeq]
        rw [hstep, ih (done ++ [c]) out]
        simp [hgr, List.append_assoc]
      · have hmem2 : ¬ c.group ∈ groupKeyList done := fun h => hmem ((mem_firstOcc _ _).mpr h)
        have hgk : groupedKeys (done ++ [c]) = groupedKeys done ++ [c.group] := by
          simp [groupedKeys, hkeys, firstOcc_append_single, hmem2]
        have hnone : mapGet ((groupedKeys done).map (fun g => (g, groupParentFor done g))) c.group = none := by
          rw [mapGet_graph, if_neg hmem]
        have hset : mapSet ((groupedKeys done).map (fun g => (g, groupParentFor done g))) c.group
              (pushSub (emptyGroupEntry c.group) (subEntryOf c))
            = (groupedKeys done).map (fun g => (g, groupParentFor done g))
                ++ [(c.group, pushSub (emptyGroupEntry c.group) (subEntryOf c))] :=
          mapSet_of_mapGet_none _ _ _ hnone
        have hempty : subEntriesFor done c.group = [] :=
          subEntriesFor_not_mem done c.group hgr hmem2
        have hstep : exportStep ((groupedKeys done).map (fun g => (g, groupParentFor done g)), out) c
            = ((groupedKeys (done ++ [c])).map (fun g => (g, groupParentFor (done ++ [c]) g)), out) := by
          simp only [exportStep, if_pos hgr, hnone, hset, hgk]
          refine Prod.ext ?_ rfl
          simp only [List.map_append, List.map_cons, List.map_nil]
          refine congrArg₂ (· ++ ·) ?_ ?_
          · refine List.map_congr_left ?_
            intro g hg
            have hne : g ≠ c.group := fun he => hmem (he ▸ hg)
            have hbeq : (c.group == g) = false :=
              beq_eq_false_iff_ne.mpr (fun he => hne he.symm)
            simp [groupParentFor, subEntriesFor_append, subEntriesFor_single, hbeq]
          · simp [groupParentFor, subEntriesFor_append, subEntriesFor_single, hempty,
              pushSub, getSubs, emptyGroupEntry]
        rw [hstep, ih (done ++ [c]) out]
        simp [hgr, List.append_assoc]
    · have hkeys : groupKeyList (done ++ [c]) = groupKeyList done := by
        simp [groupKeyList_append, groupKeyList, hgr]
      have hgk : groupedKeys (done ++ [c]) = groupedKeys done := by
        simp [groupedKeys, hkeys]
      have hpar : ∀ g ∈ groupedKeys done, groupParentFor (done ++ [c]) g = groupParentFor done g := by
        intro g hg
        have hglen : 0 < g.length := groupKeyList_pos done g ((mem_firstOcc _ _).mp hg)
        have hzero : c.group.length = 0 := Nat.eq_zero_of_not_pos hgr
        have hbeq : (c.group == g) = false := by
          refine beq_eq_false_iff_ne.mpr (fun he => ?_)
          rw [he] at hzero
          omega
        simp [groupParentFor, subEntriesFor_append, subEntriesFor, List.filter, hbeq]
      have hstep : exportStep ((groupedKeys done).map (fun g => (g, groupParentFor done g)), out) c
          = ((groupedKeys (done ++ [c])).map (fun g => (g, groupParentFor (done ++ [c]) g)),
              out ++ [topSlashEntryOf c]) := by
        simp only [exportStep, if_neg hgr, hgk]
        refine Prod.ext ?_ rfl
        simp only
        exact (List.map_congr_left (fun g hg => by rw [hpar g hg])).symm
      rw [hstep, ih (done ++ [c]) (out ++ [topSlashEntryOf c])]
      simp [hgr, List.append_assoc]

/-- The registry of the export example: slash `ping` (no group), slash `add`
and `remove` sharing group `list`, and user-context-menu `report`. -/
def c6State : ModuleState :=
  { heap := [(0, cmdPing), (1, cmdAddSub), (2, cmdRemoveSub), (3, cmdReport)],
    nextId := 4,
    commands := [(cmdPing.uniqueId, 0), (cmdAddSub.uniqueId, 1), (cmdRemoveSub.uniqueId, 2),
      (cmdReport.uniqueId, 3)],
    slashCommands := [("ping", 0), ("add", 1), ("remove", 2)],
    userContextMenuCommands := [("report", 3)] }

/-- C6: on every registry the export snapshot has exactly the spec shape —
the ungrouped slash commands as top-level entries, then one parent entry per
distinct non-empty group (the group list is duplicate-free, so each group
yields a single parent named after it, holding its member commands as
type-sub-command entries in order), then every user-context-menu and
chat-context-menu command as a top-level entry; on the example registry
{ping; add, remove grouped under list; report} this yields exactly the three
top-level entries ping, list (with sub-commands add and remove) and
report. -/
theorem exportCommands_grouping :
    (∀ s : ModuleState,
      exportCommands s = exportPerSpec (slashListOf s) (userListOf s) (chatListOf s)
        ∧ (groupedKeys (slashListOf s)).Nodup)
    ∧ exportCommands c6State
      = [topSlashEntryOf cmdPing,
          { name := "list", description := some (("list" : String) ++ interfaceSuffix),
            options := some (ApiOptionsField.subs [subEntryOf cmdAddSub, subEntryOf cmdRemoveSub]),
            type := none },
          menuEntryOf cmdReport] := by
  constructor
  · intro s
    constructor
    · have h := exportFold_char (slashListOf s) [] []
      have h0 : (groupedKeys ([] : List Cmd)).map (fun g => (g, groupParentFor [] g))
          = ([] : List (String × IDiscordApiCommand)) := rfl
      rw [h0] at h
      simp only [List.nil_append] at h
      simp only [exportCommands, exportPerSpec, h, List.map_map]
      simp [Function.comp, List.append_assoc]
    · exact nodup_firstOcc _
  · decide

end RelJs
